import Mathlib

set_option maxHeartbeats 1000000

/-!
Shallow embedding of the MeOCR single-page application
(source: src/unnamed/part_000, a React component `App`).

The embedding models:
  * `ProcessedImage`   — the per-image record interface (lines 19-26);
  * `StoreEvent` / `applyEvent` — the `setProcessedImages` mutations performed
    by `processImage` (lines 44-53, 78-102, 107-130);
  * `FileOutcome` / `fileEvents` / `batchStoreEvents` — the sequence of store
    mutations produced by `processImage` and the sequential `onDrop` loop
    (lines 135-144), with the environment (file reader and extraction
    service) resolved nondeterministically by a `FileOutcome`;
  * `TraceEvent` / `fileTrace` / `batchTrace` — the scheduling trace of the
    sequential loop (record creation, read, request, chunks, promise
    resolution, the fixed 1-second delay);
  * `AppState` / `appStep` — the full component state (record list, detail
    selection, and the set of object URLs allocated through
    `URL.createObjectURL` and never revoked);
  * `downloadFileName` — the `downloadText` action (lines 157-165);
  * `cardContent` / `detailText` — the render of a card body (lines 318-340)
    and of the detail pane (lines 355-379).
-/

/-- Per-image UI state, mirroring the `ProcessedImage` interface of the
source (lines 19-26): id, name, accumulated text, processing flag, optional
error message, and the object URL of the original image. -/
structure ProcessedImage where
  id : String
  name : String
  text : String
  isProcessing : Bool
  error : Option String
  imageUrl : String
  deriving DecidableEq

/-- Environment-determined outcome of processing one file.  `syncError`
models a synchronous throw inside the `try` block (lines 117-130),
`readError` models the `reader.onerror` callback firing (lines 107-116), and
`stream chunks streamError` models the `reader.onload` path (lines 60-105):
the extraction service yields `chunks` and then either completes
(`streamError = none`) or throws (`streamError = some raw`).  The `raw`
strings carry the underlying JavaScript error payloads, so that theorems can
state that they are never surfaced to the UI. -/
inductive FileOutcome where
  | syncError (raw : String)
  | readError (raw : String)
  | stream (chunks : List String) (streamError : Option String)
  deriving DecidableEq

/-- One accepted file together with the token drawn for it at intake
(`Math.random().toString(36).substring(7)`, line 41), the object URL created
for it (line 42), and the environment outcome of its processing. -/
structure FileSpec where
  id : String
  name : String
  imageUrl : String
  outcome : FileOutcome
  deriving DecidableEq

/-- Concatenation of the streamed chunks, mirroring `fullText += chunkText`
(line 77). -/
def concatChunks : List String → String
  | [] => ""
  | c :: cs => c ++ concatChunks cs

/-- The store mutations performed through `setProcessedImages`:
`intake` is the append at lines 44-53, `chunkUpdate` the per-chunk map at
lines 78-82, `done` the terminal map at lines 85-89, and `fail` the error
maps at lines 92-102, 108-114 and 118-128. -/
inductive StoreEvent where
  | intake (id name imageUrl : String)
  | chunkUpdate (id fullText : String)
  | done (id : String)
  | fail (id msg : String)
  deriving DecidableEq

/-- Effect of one store mutation on the record list, translated from the
`setProcessedImages` updater functions of the source. -/
def applyEvent (prev : List ProcessedImage) : StoreEvent → List ProcessedImage
  | .intake id name imageUrl =>
      prev ++ [{ id := id, name := name, text := "", isProcessing := true,
                 error := none, imageUrl := imageUrl }]
  | .chunkUpdate id fullText =>
      prev.map fun img => if img.id = id then { img with text := fullText } else img
  | .done id =>
      prev.map fun img => if img.id = id then { img with isProcessing := false } else img
  | .fail id msg =>
      prev.map fun img =>
        if img.id = id then { img with isProcessing := false, error := some msg } else img

/-- Store events produced by the chunk loop (lines 74-83) when the service
yields the given chunks, with `acc` the text already accumulated: each chunk
update carries the absolute accumulated text `fullText`. -/
def chunkEvents (id acc : String) : List String → List StoreEvent
  | [] => []
  | c :: cs => .chunkUpdate id (acc ++ c) :: chunkEvents id (acc ++ c) cs

/-- The single terminal store event of one file's processing: `done` on
stream completion (lines 85-89), `fail "Failed to process image"` on a
stream error (line 98) or a synchronous throw (line 124), and
`fail "File reading error"` on a reader error (line 111). -/
def terminalEvent (f : FileSpec) : StoreEvent :=
  match f.outcome with
  | .syncError _ => .fail f.id "Failed to process image"
  | .readError _ => .fail f.id "File reading error"
  | .stream _ none => .done f.id
  | .stream _ (some _) => .fail f.id "Failed to process image"

/-- The non-terminal store events of one file's processing: the intake
append, followed by the chunk updates when the `onload` path is reached. -/
def bodyEvents (f : FileSpec) : List StoreEvent :=
  match f.outcome with
  | .syncError _ => [.intake f.id f.name f.imageUrl]
  | .readError _ => [.intake f.id f.name f.imageUrl]
  | .stream chunks _ => .intake f.id f.name f.imageUrl :: chunkEvents f.id "" chunks

/-- All store events of one file's processing, in program order. -/
def fileEvents (f : FileSpec) : List StoreEvent := bodyEvents f ++ [terminalEvent f]

/-- All store events of a batch, in program order: the `onDrop` loop
(lines 135-144) processes the files strictly in sequence, so the events of
each file form a contiguous block. -/
def batchStoreEvents : List FileSpec → List StoreEvent
  | [] => []
  | f :: fs => fileEvents f ++ batchStoreEvents fs

/-- The record list after an entire batch has been processed, starting from
the store `start`. -/
def runBatch (start : List ProcessedImage) (fs : List FileSpec) : List ProcessedImage :=
  List.foldl applyEvent start (batchStoreEvents fs)

/-- The record list after the first `n` store events of a batch, starting
from the empty store. -/
def storeAt (fs : List FileSpec) (n : Nat) : List ProcessedImage :=
  List.foldl applyEvent [] ((batchStoreEvents fs).take n)

/-- The record a file ends with once its processing has terminated. -/
def finalRecord (f : FileSpec) : ProcessedImage :=
  match f.outcome with
  | .syncError _ =>
      { id := f.id, name := f.name, text := "", isProcessing := false,
        error := some "Failed to process image", imageUrl := f.imageUrl }
  | .readError _ =>
      { id := f.id, name := f.name, text := "", isProcessing := false,
        error := some "File reading error", imageUrl := f.imageUrl }
  | .stream chunks none =>
      { id := f.id, name := f.name, text := concatChunks chunks, isProcessing := false,
        error := none, imageUrl := f.imageUrl }
  | .stream chunks (some _) =>
      { id := f.id, name := f.name, text := concatChunks chunks, isProcessing := false,
        error := some "Failed to process image", imageUrl := f.imageUrl }

/-- The record of a file whose processing is still under way, holding the
text accumulated so far. -/
def inflightRecord (f : FileSpec) (t : String) : ProcessedImage :=
  { id := f.id, name := f.name, text := t, isProcessing := true,
    error := none, imageUrl := f.imageUrl }

/-- Whether a store event is the terminal event of some file (a `done` or
`fail` update). -/
def isTerminal : StoreEvent → Bool
  | .done _ => true
  | .fail _ _ => true
  | _ => false

/-- Number of files whose processing has fully terminated within the first
`n` store events of the batch. -/
def finishedCount (fs : List FileSpec) (n : Nat) : Nat :=
  ((batchStoreEvents fs).take n).countP isTerminal

/-- Scheduling events of the sequential loop, indexed by the position of the
file in the batch: record creation (lines 44-53), start of the binary read
(line 58), issue of the extraction request (line 64), receipt of one
streamed chunk (lines 75-83), end of the streamed request, resolution of the
per-file promise (lines 90, 103, 115, 129), and completion of the fixed
1-second delay (line 142). -/
inductive TraceEvent where
  | recordCreated (i : Nat)
  | readStart (i : Nat)
  | requestStart (i : Nat)
  | chunkReceived (i : Nat)
  | requestEnd (i : Nat)
  | promiseResolved (i : Nat)
  | delayElapsed (i : Nat)
  deriving DecidableEq

/-- Index of the file an event belongs to. -/
def eventFile : TraceEvent → Nat
  | .recordCreated i => i
  | .readStart i => i
  | .requestStart i => i
  | .chunkReceived i => i
  | .requestEnd i => i
  | .promiseResolved i => i
  | .delayElapsed i => i

/-- The scheduling trace of one file's processing, by outcome: the promise
resolves (line 90, 103) or rejects (line 115, 129) only after the whole
per-file interaction has ended, and the extraction request is issued only on
the `onload` path. -/
def fileTrace (i : Nat) : FileOutcome → List TraceEvent
  | .syncError _ => [.recordCreated i, .promiseResolved i]
  | .readError _ => [.recordCreated i, .readStart i, .promiseResolved i]
  | .stream chunks _ =>
      .recordCreated i :: .readStart i :: .requestStart i ::
        ((chunks.map fun _ => .chunkReceived i) ++ [.requestEnd i, .promiseResolved i])

/-- The scheduling trace of the whole batch: the `onDrop` loop awaits each
file's promise and then the fixed delay before touching the next file. -/
def batchTrace (i : Nat) : List FileOutcome → List TraceEvent
  | [] => []
  | o :: os => fileTrace i o ++ (TraceEvent.delayElapsed i :: batchTrace (i + 1) os)

/-- Checks that at every point of the trace at most one extraction request
is in flight; `busy` records whether a request is currently open. -/
def atMostOneInFlight (busy : Bool) : List TraceEvent → Bool
  | [] => true
  | .requestStart _ :: es => !busy && atMostOneInFlight true es
  | .requestEnd _ :: es => busy && atMostOneInFlight false es
  | _ :: es => atMostOneInFlight busy es

/-- Full component state: the record list, the detail-pane selection (the
`selectedImage` state holds a record value captured at selection time,
lines 34-36 and 257), and the object URLs allocated through
`URL.createObjectURL`.  The source never calls `URL.revokeObjectURL`, so no
transition removes a URL from `allocatedUrls`. -/
structure AppState where
  processedImages : List ProcessedImage
  selectedImage : Option ProcessedImage
  allocatedUrls : List String
  deriving DecidableEq

/-- User-level and processor-level events acting on the component state. -/
inductive AppEvent where
  | store (e : StoreEvent)
  | removeImage (id : String)
  | selectImage (img : ProcessedImage)
  | clearSelection
  deriving DecidableEq

/-- Effect of one event on the component state.  Processor events touch only
the record list (and, at intake, allocate the object URL, line 42);
`removeImage` (lines 167-172) filters the record list and clears the
selection exactly when the selected record carries the removed id;
`selectImage` (line 257) stores the clicked record value; `clearSelection`
(line 362) resets the selection. -/
def appStep (s : AppState) : AppEvent → AppState
  | .store (.intake id name imageUrl) =>
      { s with processedImages := applyEvent s.processedImages (.intake id name imageUrl),
               allocatedUrls := s.allocatedUrls ++ [imageUrl] }
  | .store e => { s with processedImages := applyEvent s.processedImages e }
  | .removeImage id =>
      { processedImages := s.processedImages.filter fun img => img.id != id,
        selectedImage :=
          match s.selectedImage with
          | some im => if im.id = id then none else some im
          | none => none,
        allocatedUrls := s.allocatedUrls }
  | .selectImage img => { s with selectedImage := some img }
  | .clearSelection => { s with selectedImage := none }

/-- Runs a sequence of events from a component state. -/
def runApp (s : AppState) (evs : List AppEvent) : AppState := List.foldl appStep s evs

/-- Component state at page load. -/
def initialAppState : AppState :=
  { processedImages := [], selectedImage := none, allocatedUrls := [] }

/-- What the body of a card renders (lines 318-340): the error message when
`img.error` is set, otherwise the accumulated markdown text. -/
inductive CardContent where
  | errorView (msg : String)
  | textView (txt : String)
  deriving DecidableEq

/-- Render of one card body, translated from `img.error ? ... : ...`
(line 318). -/
def cardContent (img : ProcessedImage) : CardContent :=
  match img.error with
  | some e => .errorView e
  | none => .textView img.text

/-- Text rendered by the detail pane (lines 368-377): the text of the
selection snapshot, when a record is selected. -/
def detailText (s : AppState) : Option String :=
  s.selectedImage.map ProcessedImage.text

/-- Model of the JavaScript `filename.split('.')` call (line 161) on a list
of characters, with `acc` the characters of the current segment in reverse
order. -/
def splitDotAux : List Char → List Char → List (List Char)
  | [], acc => [acc.reverse]
  | c :: cs, acc =>
      if c = '.' then acc.reverse :: splitDotAux cs [] else splitDotAux cs (c :: acc)

/-- Name of the downloaded file, translated from
`filename.split('.')[0] + '-extracted.txt'` (line 161). -/
def downloadFileName (filename : String) : String :=
  String.mk ((splitDotAux filename.data []).headD []) ++ "-extracted.txt"

/-- The `downloadText` action (lines 157-165): the produced plain-text file
as a pair of its name and its content (`new Blob([text])`, line 159). -/
def downloadFile (text filename : String) : String × String :=
  (downloadFileName filename, text)

/-- Modelled from the spec's words: the stem of a file name, that is the
name with its final extension removed (the part before the last dot), or the
whole name when it has no dot.  Used only to compare the claimed download
name against the implemented one. -/
def stemOf (s : String) : String :=
  if s.data.contains '.' then
    String.mk (((s.data.reverse.dropWhile fun c => c != '.').drop 1).reverse)
  else s

/-- Download name claimed by the spec: stem of the original name followed by
the fixed suffix. -/
def stemDownloadName (filename : String) : String := stemOf filename ++ "-extracted.txt"

/-! ### Helper lemmas about the store update maps -/

/-- An update keyed on an id not present in the store is the identity. -/
theorem updMap_id_of_fresh (x : String) (g : ProcessedImage → ProcessedImage)
    (s : List ProcessedImage) (h : ∀ q ∈ s, q.id ≠ x) :
    (s.map fun q => if q.id = x then g q else q) = s := by
  induction s with
  | nil => rfl
  | cons r s ih =>
      have hr : r.id ≠ x := h r (List.mem_cons_self r s)
      simp only [List.map_cons, if_neg hr]
      rw [ih fun q hq => h q (List.mem_cons_of_mem _ hq)]

/-- An update keyed on the id of the last record rewrites exactly that
record. -/
theorem updMap_snoc (x : String) (g : ProcessedImage → ProcessedImage)
    (s : List ProcessedImage) (r : ProcessedImage)
    (h : ∀ q ∈ s, q.id ≠ x) (hr : r.id = x) :
    ((s ++ [r]).map fun q => if q.id = x then g q else q) = s ++ [g r] := by
  rw [List.map_append, updMap_id_of_fresh x g s h]
  simp [hr]

/-- Overwriting the text of a record twice keeps only the second write. -/
theorem record_set_text_twice (r : ProcessedImage) (t₁ t₂ : String) :
    ({ ({ r with text := t₁ }) with text := t₂ } : ProcessedImage) = { r with text := t₂ } := rfl

/-- Folding the chunk updates over a store that ends with the record under
processing rewrites only that record, leaving it with all chunks
accumulated. -/
theorem foldl_chunkEvents (x : String) (cs : List String) :
    ∀ (acc : String) (s : List ProcessedImage) (r : ProcessedImage),
      (∀ q ∈ s, q.id ≠ x) → r.id = x → r.text = acc →
      List.foldl applyEvent (s ++ [r]) (chunkEvents x acc cs)
        = s ++ [{ r with text := acc ++ concatChunks cs }] := by
  induction cs with
  | nil =>
      intro acc s r _ _ ht
      subst ht
      simp [chunkEvents, concatChunks, String.append_empty]
  | cons c cs ih =>
      intro acc s r h hr ht
      have step : applyEvent (s ++ [r]) (StoreEvent.chunkUpdate x (acc ++ c))
          = s ++ [{ r with text := acc ++ c }] :=
        updMap_snoc x (fun q => { q with text := acc ++ c }) s r h hr
      calc List.foldl applyEvent (s ++ [r]) (chunkEvents x acc (c :: cs))
          = List.foldl applyEvent (s ++ [{ r with text := acc ++ c }])
              (chunkEvents x (acc ++ c) cs) := by
            rw [chunkEvents, List.foldl_cons, step]
        _ = s ++ [{ ({ r with text := acc ++ c }) with text := (acc ++ c) ++ concatChunks cs }] :=
            ih (acc ++ c) s { r with text := acc ++ c } h hr rfl
        _ = s ++ [{ r with text := acc ++ concatChunks (c :: cs) }] := by
            rw [record_set_text_twice, String.append_assoc]
            rfl

/-- The id of the terminal record of a file is the token drawn for the
file. -/
theorem finalRecord_id (f : FileSpec) : (finalRecord f).id = f.id := by
  obtain ⟨i, nm, u, o⟩ := f
  rcases o with raw | raw | ⟨cs, _ | raw⟩ <;> rfl

/-- Running all store events of one file over a store free of the file's id
appends exactly the file's terminal record. -/
theorem foldl_fileEvents (f : FileSpec) (s : List ProcessedImage)
    (h : ∀ q ∈ s, q.id ≠ f.id) :
    List.foldl applyEvent s (fileEvents f) = s ++ [finalRecord f] := by
  obtain ⟨i, nm, u, o⟩ := f
  cases o with
  | syncError raw =>
      show applyEvent (applyEvent s (.intake i nm u)) (.fail i "Failed to process image") = _
      rw [show applyEvent s (.intake i nm u)
          = s ++ [⟨i, nm, "", true, none, u⟩] from rfl]
      exact updMap_snoc i
        (fun q => { q with isProcessing := false, error := some "Failed to process image" })
        s ⟨i, nm, "", true, none, u⟩ h rfl
  | readError raw =>
      show applyEvent (applyEvent s (.intake i nm u)) (.fail i "File reading error") = _
      rw [show applyEvent s (.intake i nm u)
          = s ++ [⟨i, nm, "", true, none, u⟩] from rfl]
      exact updMap_snoc i
        (fun q => { q with isProcessing := false, error := some "File reading error" })
        s ⟨i, nm, "", true, none, u⟩ h rfl
  | stream cs st =>
      have hb : List.foldl applyEvent s (bodyEvents ⟨i, nm, u, .stream cs st⟩)
          = s ++ [⟨i, nm, concatChunks cs, true, none, u⟩] := by
        show List.foldl applyEvent (applyEvent s (.intake i nm u)) (chunkEvents i "" cs) = _
        rw [show applyEvent s (.intake i nm u)
            = s ++ [⟨i, nm, "", true, none, u⟩] from rfl]
        rw [foldl_chunkEvents i cs "" s ⟨i, nm, "", true, none, u⟩ h rfl rfl]
        rw [show ("" : String) ++ concatChunks cs = concatChunks cs from String.empty_append _]
      rw [fileEvents, List.foldl_append, hb]
      cases st with
      | none =>
          show applyEvent (s ++ [⟨i, nm, concatChunks cs, true, none, u⟩]) (.done i) = _
          exact updMap_snoc i (fun q => { q with isProcessing := false })
            s ⟨i, nm, concatChunks cs, true, none, u⟩ h rfl
      | some raw =>
          show applyEvent (s ++ [⟨i, nm, concatChunks cs, true, none, u⟩])
              (.fail i "Failed to process image") = _
          exact updMap_snoc i
            (fun q => { q with isProcessing := false, error := some "Failed to process image" })
            s ⟨i, nm, concatChunks cs, true, none, u⟩ h rfl

/-! ### Identity and order of the records across a batch -/

/-- Identity data of a record: its id and its name.  Every update map of the
source preserves both. -/
def recKey (r : ProcessedImage) : String × String := (r.id, r.name)

/-- Intake data carried by a list of store events, in order. -/
def intakeKeys (evs : List StoreEvent) : List (String × String) :=
  evs.filterMap fun e =>
    match e with
    | .intake id name _ => some (id, name)
    | _ => none

/-- Every store event either appends one record carrying its intake data or
rewrites records in place: the id-name sequence of the store after any event
sequence is the one before, extended with the intake data, in order. -/
theorem recKey_foldl (evs : List StoreEvent) :
    ∀ s : List ProcessedImage,
      (List.foldl applyEvent s evs).map recKey = s.map recKey ++ intakeKeys evs := by
  induction evs with
  | nil => intro s; simp [intakeKeys]
  | cons e evs ih =>
      intro s
      rw [List.foldl_cons, ih (applyEvent s e)]
      cases e with
      | intake id name imageUrl => simp [applyEvent, intakeKeys, recKey, List.filterMap_cons]
      | chunkUpdate id fullText =>
          have : (applyEvent s (.chunkUpdate id fullText)).map recKey = s.map recKey := by
            simp only [applyEvent, List.map_map]
            refine List.map_congr_left fun r _ => ?_
            by_cases h : r.id = id <;> simp [h, recKey, Function.comp]
          rw [this]
          simp [intakeKeys, List.filterMap_cons]
      | done id =>
          have : (applyEvent s (.done id)).map recKey = s.map recKey := by
            simp only [applyEvent, List.map_map]
            refine List.map_congr_left fun r _ => ?_
            by_cases h : r.id = id <;> simp [h, recKey, Function.comp]
          rw [this]
          simp [intakeKeys, List.filterMap_cons]
      | fail id msg =>
          have : (applyEvent s (.fail id msg)).map recKey = s.map recKey := by
            simp only [applyEvent, List.map_map]
            refine List.map_congr_left fun r _ => ?_
            by_cases h : r.id = id <;> simp [h, recKey, Function.comp]
          rw [this]
          simp [intakeKeys, List.filterMap_cons]

/-- Every event of the chunk loop is a chunk update keyed on the file's
id. -/
theorem chunkEvents_shape (x : String) (cs : List String) :
    ∀ acc, ∀ e ∈ chunkEvents x acc cs, ∃ t, e = StoreEvent.chunkUpdate x t := by
  induction cs with
  | nil => intro acc e he; cases he
  | cons c cs ih =>
      intro acc e he
      simp only [chunkEvents] at he
      rcases List.mem_cons.mp he with h | h
      · exact ⟨acc ++ c, h⟩
      · exact ih (acc ++ c) e h

/-- Intake data distributes over concatenation of event lists. -/
theorem intakeKeys_append (l₁ l₂ : List StoreEvent) :
    intakeKeys (l₁ ++ l₂) = intakeKeys l₁ ++ intakeKeys l₂ := by
  simp [intakeKeys, List.filterMap_append]

/-- The chunk loop performs no intake. -/
theorem intakeKeys_chunkEvents (x : String) (cs : List String) (acc : String) :
    intakeKeys (chunkEvents x acc cs) = [] := by
  simp only [intakeKeys]
  rw [List.filterMap_eq_nil_iff]
  intro e he
  obtain ⟨t, rfl⟩ := chunkEvents_shape x cs acc e he
  rfl

/-- The terminal event of a file performs no intake. -/
theorem intakeKeys_terminal (f : FileSpec) : intakeKeys [terminalEvent f] = [] := by
  obtain ⟨i, nm, u, o⟩ := f
  rcases o with raw | raw | ⟨cs, _ | raw⟩ <;> rfl

/-- One file's processing performs exactly one intake, carrying the file's
id and name. -/
theorem intakeKeys_fileEvents (f : FileSpec) :
    intakeKeys (fileEvents f) = [(f.id, f.name)] := by
  rw [fileEvents, intakeKeys_append, intakeKeys_terminal, List.append_nil]
  obtain ⟨i, nm, u, o⟩ := f
  rcases o with raw | raw | ⟨cs, st⟩
  · rfl
  · rfl
  · show (i, nm) :: intakeKeys (chunkEvents i "" cs) = _
    rw [intakeKeys_chunkEvents]

/-- A batch performs the intakes of its files, in drop order. -/
theorem intakeKeys_batch (fs : List FileSpec) :
    intakeKeys (batchStoreEvents fs) = fs.map fun f => (f.id, f.name) := by
  induction fs with
  | nil => rfl
  | cons f fs ih =>
      show intakeKeys (fileEvents f ++ batchStoreEvents fs) = _
      rw [intakeKeys_append, intakeKeys_fileEvents, ih]
      rfl

/-! ### Full-batch and prefix characterizations of the store -/

/-- Unfolding the batch over its first file. -/
theorem runBatch_cons (f : FileSpec) (fs : List FileSpec) (s : List ProcessedImage) :
    runBatch s (f :: fs) = runBatch (List.foldl applyEvent s (fileEvents f)) fs := by
  show List.foldl applyEvent s (fileEvents f ++ batchStoreEvents fs) = _
  rw [List.foldl_append]
  rfl

/-- Appending the terminal record of the first file keeps the store disjoint
from the ids of the remaining files. -/
theorem disj_snoc_final (f : FileSpec) (fs : List FileSpec) (s : List ProcessedImage)
    (hdisj : ∀ q ∈ s, ∀ g ∈ f :: fs, q.id ≠ g.id)
    (hnotin : f.id ∉ fs.map FileSpec.id) :
    ∀ q ∈ s ++ [finalRecord f], ∀ g ∈ fs, q.id ≠ g.id := by
  intro q hq g hg
  rcases List.mem_append.mp hq with h | h
  · exact hdisj q h g (List.mem_cons_of_mem f hg)
  · have hq' : q = finalRecord f := by simpa using h
    subst hq'
    rw [finalRecord_id]
    intro hcontra
    exact hnotin (by rw [hcontra]; exact List.mem_map_of_mem _ hg)

/-- Processing a whole batch whose ids are fresh for the store and pairwise
distinct appends exactly the terminal records of its files, in drop
order. -/
theorem runBatch_eq (fs : List FileSpec) :
    ∀ s : List ProcessedImage,
      (∀ q ∈ s, ∀ f ∈ fs, q.id ≠ f.id) → (fs.map FileSpec.id).Nodup →
      runBatch s fs = s ++ fs.map finalRecord := by
  induction fs with
  | nil => intro s _ _; simp [runBatch, batchStoreEvents]
  | cons f fs ih =>
      intro s hdisj hnd
      have hfresh : ∀ q ∈ s, q.id ≠ f.id := fun q hq => hdisj q hq f (List.mem_cons_self f fs)
      have hnd2 := hnd
      simp only [List.map_cons, List.nodup_cons] at hnd2
      rw [runBatch_cons, foldl_fileEvents f s hfresh,
        ih (s ++ [finalRecord f]) (disj_snoc_final f fs s hdisj hnd2.1) hnd2.2]
      simp

/-- Length of the chunk-update block. -/
theorem chunkEvents_length (x : String) (cs : List String) :
    ∀ acc, (chunkEvents x acc cs).length = cs.length := by
  induction cs with
  | nil => intro acc; rfl
  | cons c cs ih => intro acc; simp [chunkEvents, ih (acc ++ c)]

/-- Truncating the chunk-update block truncates the chunk list. -/
theorem chunkEvents_take (x : String) (cs : List String) :
    ∀ acc n, (chunkEvents x acc cs).take n = chunkEvents x acc (cs.take n) := by
  induction cs with
  | nil => intro acc n; simp [chunkEvents]
  | cons c cs ih =>
      intro acc n
      cases n with
      | zero => rfl
      | succ n => simp [chunkEvents, List.take_succ_cons, ih (acc ++ c) n]

/-- No event before the terminal one is terminal. -/
theorem isTerminal_of_mem_body (f : FileSpec) :
    ∀ e ∈ bodyEvents f, isTerminal e = false := by
  obtain ⟨i, nm, u, o⟩ := f
  rcases o with raw | raw | ⟨cs, st⟩
  · intro e he
    have he' : e = StoreEvent.intake i nm u := by simpa [bodyEvents] using he
    subst he'; rfl
  · intro e he
    have he' : e = StoreEvent.intake i nm u := by simpa [bodyEvents] using he
    subst he'; rfl
  · intro e he
    simp only [bodyEvents] at he
    rcases List.mem_cons.mp he with h | h
    · subst h; rfl
    · obtain ⟨t, rfl⟩ := chunkEvents_shape i cs "" e h
      rfl

/-- Any truncation of a file's body contains no terminal event. -/
theorem countP_terminal_body_take (f : FileSpec) (n : Nat) :
    ((bodyEvents f).take n).countP isTerminal = 0 := by
  rw [List.countP_eq_zero]
  intro e he
  simp [isTerminal_of_mem_body f e (List.take_subset n _ he)]

/-- The terminal event is terminal. -/
theorem isTerminal_terminalEvent (f : FileSpec) : isTerminal (terminalEvent f) = true := by
  obtain ⟨i, nm, u, o⟩ := f
  rcases o with raw | raw | ⟨cs, _ | raw⟩ <;> rfl

/-- One file's processing contains exactly one terminal event. -/
theorem countP_terminal_fileEvents (f : FileSpec) :
    (fileEvents f).countP isTerminal = 1 := by
  rw [fileEvents, List.countP_append]
  have h1 : (bodyEvents f).countP isTerminal = 0 := by
    rw [List.countP_eq_zero]
    intro e he
    simp [isTerminal_of_mem_body f e he]
  simp [h1, List.countP_cons, isTerminal_terminalEvent]

/-- The block of one file has one more event than its body. -/
theorem fileEvents_length (f : FileSpec) :
    (fileEvents f).length = (bodyEvents f).length + 1 := by
  simp [fileEvents]

/-- Running a nonempty truncation of a file's body appends the in-flight
record of that file, carrying some accumulated text. -/
theorem foldl_bodyEvents_take (f : FileSpec) (s : List ProcessedImage)
    (h : ∀ q ∈ s, q.id ≠ f.id) (n : Nat) (h1 : 1 ≤ n) :
    ∃ t, List.foldl applyEvent s ((bodyEvents f).take n) = s ++ [inflightRecord f t] := by
  obtain ⟨i, nm, u, o⟩ := f
  rcases o with raw | raw | ⟨cs, st⟩
  · cases n with
    | zero => exact absurd h1 (by decide)
    | succ m =>
        refine ⟨"", ?_⟩
        rw [show (bodyEvents ⟨i, nm, u, FileOutcome.syncError raw⟩).take (m + 1)
            = [StoreEvent.intake i nm u] from by simp [bodyEvents]]
        rfl
  · cases n with
    | zero => exact absurd h1 (by decide)
    | succ m =>
        refine ⟨"", ?_⟩
        rw [show (bodyEvents ⟨i, nm, u, FileOutcome.readError raw⟩).take (m + 1)
            = [StoreEvent.intake i nm u] from by simp [bodyEvents]]
        rfl
  · cases n with
    | zero => exact absurd h1 (by decide)
    | succ m =>
        refine ⟨"" ++ concatChunks (cs.take m), ?_⟩
        show List.foldl applyEvent s (StoreEvent.intake i nm u :: (chunkEvents i "" cs).take m) = _
        rw [chunkEvents_take]
        show List.foldl applyEvent (applyEvent s (.intake i nm u)) (chunkEvents i "" (cs.take m)) = _
        rw [show applyEvent s (.intake i nm u) = s ++ [⟨i, nm, "", true, none, u⟩] from rfl]
        exact foldl_chunkEvents i (cs.take m) "" s ⟨i, nm, "", true, none, u⟩ h rfl rfl

/-- Shape of the store after any number of store events of a batch with
fresh, pairwise-distinct ids: the terminal records of the files already
finished, in drop order, possibly followed by the in-flight record of the
file currently under processing. -/
theorem storeShape (fs : List FileSpec) :
    ∀ (s : List ProcessedImage) (n : Nat),
      (∀ q ∈ s, ∀ f ∈ fs, q.id ≠ f.id) → (fs.map FileSpec.id).Nodup →
      (List.foldl applyEvent s ((batchStoreEvents fs).take n)
          = s ++ (fs.take (((batchStoreEvents fs).take n).countP isTerminal)).map finalRecord)
      ∨ (∃ f t, fs[((batchStoreEvents fs).take n).countP isTerminal]? = some f ∧
          List.foldl applyEvent s ((batchStoreEvents fs).take n)
            = s ++ (fs.take (((batchStoreEvents fs).take n).countP isTerminal)).map finalRecord
              ++ [inflightRecord f t]) := by
  induction fs with
  | nil =>
      intro s n _ _
      left
      simp [batchStoreEvents]
  | cons f fs ih =>
      intro s n hdisj hnd
      have hfresh : ∀ q ∈ s, q.id ≠ f.id := fun q hq => hdisj q hq f (List.mem_cons_self f fs)
      have hnd2 := hnd
      simp only [List.map_cons, List.nodup_cons] at hnd2
      by_cases hn : n ≤ (bodyEvents f).length
      · have htake : (batchStoreEvents (f :: fs)).take n = (bodyEvents f).take n := by
          show (fileEvents f ++ batchStoreEvents fs).take n = _
          rw [List.take_append_of_le_length (by rw [fileEvents_length]; omega)]
          rw [fileEvents, List.take_append_of_le_length hn]
        rw [htake, countP_terminal_body_take]
        cases n with
        | zero => left; simp
        | succ m =>
            right
            obtain ⟨t, hst⟩ := foldl_bodyEvents_take f s hfresh (m + 1) (by omega)
            exact ⟨f, t, by simp, by simp [hst]⟩
      · push_neg at hn
        obtain ⟨m, rfl⟩ : ∃ m, n = (fileEvents f).length + m :=
          ⟨n - (fileEvents f).length, by rw [fileEvents_length]; omega⟩
        have htake : (batchStoreEvents (f :: fs)).take ((fileEvents f).length + m)
            = fileEvents f ++ (batchStoreEvents fs).take m := by
          show (fileEvents f ++ batchStoreEvents fs).take ((fileEvents f).length + m) = _
          rw [List.take_append]
        have hcount : ((batchStoreEvents (f :: fs)).take ((fileEvents f).length + m)).countP isTerminal
            = ((batchStoreEvents fs).take m).countP isTerminal + 1 := by
          rw [htake, List.countP_append, countP_terminal_fileEvents]
          omega
        have key := ih (s ++ [finalRecord f]) m
          (disj_snoc_final f fs s hdisj hnd2.1) hnd2.2
        rcases key with hkey | ⟨g, t, hget, hkey⟩
        · left
          rw [hcount, htake, List.foldl_append, foldl_fileEvents f s hfresh, hkey]
          simp [List.take_succ_cons, List.append_assoc]
        · right
          refine ⟨g, t, ?_, ?_⟩
          · rw [hcount]
            simpa using hget
          · rw [hcount, htake, List.foldl_append, foldl_fileEvents f s hfresh, hkey]
            simp [List.take_succ_cons, List.append_assoc]

/-! ### Scheduling-trace lemmas -/

/-- Every scheduling event of one file's processing carries that file's
index. -/
theorem eventFile_of_mem_fileTrace (i : Nat) (o : FileOutcome) :
    ∀ e ∈ fileTrace i o, eventFile e = i := by
  rcases o with raw | raw | ⟨cs, st⟩
  · intro e he
    simp only [fileTrace, List.mem_cons, List.not_mem_nil, or_false] at he
    rcases he with rfl | rfl <;> rfl
  · intro e he
    simp only [fileTrace, List.mem_cons, List.not_mem_nil, or_false] at he
    rcases he with rfl | rfl | rfl <;> rfl
  · intro e he
    simp only [fileTrace, List.mem_cons, List.mem_append, List.mem_map,
      List.not_mem_nil, or_false] at he
    rcases he with rfl | rfl | rfl | ⟨a, _, rfl⟩ | rfl | rfl <;> rfl

/-- The per-file promise resolution appears in the file's trace for every
outcome. -/
theorem promiseResolved_mem_fileTrace (i : Nat) (o : FileOutcome) :
    TraceEvent.promiseResolved i ∈ fileTrace i o := by
  rcases o with raw | raw | ⟨cs, st⟩ <;> simp [fileTrace]

/-- Record creation appears in the file's trace for every outcome. -/
theorem recordCreated_mem_fileTrace (i : Nat) (o : FileOutcome) :
    TraceEvent.recordCreated i ∈ fileTrace i o := by
  rcases o with raw | raw | ⟨cs, st⟩ <;> simp [fileTrace]

/-- Record creation is the very first scheduling event of a file's
processing. -/
theorem fileTrace_head (i : Nat) (o : FileOutcome) :
    (fileTrace i o).head? = some (TraceEvent.recordCreated i) := by
  rcases o with raw | raw | ⟨cs, st⟩ <;> rfl

/-- Every event of the batch trace starting at index `i` belongs to a file
of index at least `i`. -/
theorem batchTrace_le (os : List FileOutcome) :
    ∀ i, ∀ e ∈ batchTrace i os, i ≤ eventFile e := by
  induction os with
  | nil => intro i e he; cases he
  | cons o os ih =>
      intro i e he
      simp only [batchTrace, List.mem_append, List.mem_cons] at he
      rcases he with h | h | h
      · rw [eventFile_of_mem_fileTrace i o e h]
      · subst h; exact Nat.le_refl i
      · exact Nat.le_of_succ_le (ih (i + 1) e h)

/-- The file indices are nondecreasing along the batch trace: the loop never
emits an event of a later file before one of an earlier file. -/
theorem batchTrace_pairwise (os : List FileOutcome) :
    ∀ i, List.Pairwise (fun a b => eventFile a ≤ eventFile b) (batchTrace i os) := by
  induction os with
  | nil => intro i; exact List.Pairwise.nil
  | cons o os ih =>
      intro i
      show List.Pairwise _ (fileTrace i o ++ (TraceEvent.delayElapsed i :: batchTrace (i + 1) os))
      rw [List.pairwise_append]
      refine ⟨?_, ?_, ?_⟩
      · exact List.pairwise_of_forall_mem_list fun a ha b hb => by
          rw [eventFile_of_mem_fileTrace i o a ha, eventFile_of_mem_fileTrace i o b hb]
      · rw [List.pairwise_cons]
        exact ⟨fun e he => Nat.le_of_succ_le (batchTrace_le os (i + 1) e he), ih (i + 1)⟩
      · intro a ha b hb
        rw [eventFile_of_mem_fileTrace i o a ha]
        rcases List.mem_cons.mp hb with rfl | h
        · exact Nat.le_refl i
        · exact Nat.le_of_succ_le (batchTrace_le os (i + 1) b h)

/-- Record creation, promise resolution and delay completion of the file at
offset `k` all appear in the batch trace. -/
theorem batchTrace_members (os : List FileOutcome) :
    ∀ i k, k < os.length →
      TraceEvent.recordCreated (i + k) ∈ batchTrace i os ∧
      TraceEvent.promiseResolved (i + k) ∈ batchTrace i os ∧
      TraceEvent.delayElapsed (i + k) ∈ batchTrace i os := by
  induction os with
  | nil => intro i k hk; exact absurd hk (Nat.not_lt_zero k)
  | cons o os ih =>
      intro i k hk
      cases k with
      | zero =>
          refine ⟨?_, ?_, ?_⟩
          · exact List.mem_append_left _ (recordCreated_mem_fileTrace i o)
          · exact List.mem_append_left _ (promiseResolved_mem_fileTrace i o)
          · exact List.mem_append_right _ (List.mem_cons_self _ _)
      | succ k =>
          have hk' : k < os.length := by simpa using Nat.lt_of_succ_lt_succ hk
          have harith : i + (k + 1) = (i + 1) + k := by omega
          obtain ⟨h1, h2, h3⟩ := ih (i + 1) k hk'
          rw [harith]
          exact ⟨List.mem_append_right _ (List.mem_cons_of_mem _ h1),
            List.mem_append_right _ (List.mem_cons_of_mem _ h2),
            List.mem_append_right _ (List.mem_cons_of_mem _ h3)⟩

/-- Chunk-receipt events leave the in-flight discipline unchanged. -/
theorem atMostOneInFlight_chunks (i : Nat) (cs : List String) :
    ∀ (rest : List TraceEvent) (b : Bool),
      atMostOneInFlight b ((cs.map fun _ => TraceEvent.chunkReceived i) ++ rest)
        = atMostOneInFlight b rest := by
  induction cs with
  | nil => intro rest b; rfl
  | cons c cs ih => intro rest b; exact ih rest b

/-- One file's trace opens and closes at most one request, starting and
ending with none in flight. -/
theorem atMostOneInFlight_fileTrace (i : Nat) (o : FileOutcome) :
    ∀ rest, atMostOneInFlight false (fileTrace i o ++ rest) = atMostOneInFlight false rest := by
  rcases o with raw | raw | ⟨cs, st⟩
  · intro rest; rfl
  · intro rest; rfl
  · intro rest
    rw [show fileTrace i (FileOutcome.stream cs st) ++ rest
        = TraceEvent.recordCreated i :: TraceEvent.readStart i :: TraceEvent.requestStart i ::
            ((cs.map fun _ => TraceEvent.chunkReceived i)
              ++ ([TraceEvent.requestEnd i, TraceEvent.promiseResolved i] ++ rest)) from by
      simp [fileTrace]]
    show (!false && atMostOneInFlight true
        ((cs.map fun _ => TraceEvent.chunkReceived i)
          ++ ([TraceEvent.requestEnd i, TraceEvent.promiseResolved i] ++ rest))) = _
    rw [atMostOneInFlight_chunks]
    rfl

/-- Across the whole batch, at most one extraction request is ever in
flight. -/
theorem atMostOneInFlight_batchTrace (os : List FileOutcome) :
    ∀ i, atMostOneInFlight false (batchTrace i os) = true := by
  induction os with
  | nil => intro i; rfl
  | cons o os ih =>
      intro i
      show atMostOneInFlight false
          (fileTrace i o ++ (TraceEvent.delayElapsed i :: batchTrace (i + 1) os)) = true
      rw [atMostOneInFlight_fileTrace]
      exact ih (i + 1)

/-! ### Download name, app-state and indexing helpers -/

/-- The first segment of the dot-split of a character list is its longest
dot-free initial segment. -/
theorem splitDotAux_headD (cs : List Char) :
    ∀ acc, (splitDotAux cs acc).headD [] = acc.reverse ++ cs.takeWhile (fun c => c != '.') := by
  induction cs with
  | nil => intro acc; simp [splitDotAux]
  | cons c cs ih =>
      intro acc
      by_cases h : c = '.'
      · subst h
        simp [splitDotAux, List.takeWhile_cons]
      · rw [show splitDotAux (c :: cs) acc = splitDotAux cs (c :: acc) from by
            simp [splitDotAux, h]]
        rw [ih (c :: acc)]
        simp [h, List.takeWhile_cons, List.append_assoc]

/-- The produced download name is the original name up to its first dot,
followed by the fixed suffix. -/
theorem downloadFileName_takeWhile (filename : String) :
    downloadFileName filename
      = String.mk (filename.data.takeWhile fun c => c != '.') ++ "-extracted.txt" := by
  rw [downloadFileName, splitDotAux_headD filename.data []]
  rfl

/-- Processor store events never change the detail selection. -/
theorem selected_appStep_store (s : AppState) (e : StoreEvent) :
    (appStep s (AppEvent.store e)).selectedImage = s.selectedImage := by
  cases e <;> rfl

/-- A run made only of processor store events never changes the detail
selection. -/
theorem selected_foldl_store (evs : List StoreEvent) :
    ∀ s : AppState,
      (List.foldl appStep s (evs.map AppEvent.store)).selectedImage = s.selectedImage := by
  induction evs with
  | nil => intro s; rfl
  | cons e evs ih =>
      intro s
      rw [List.map_cons, List.foldl_cons, ih (appStep s (AppEvent.store e)),
        selected_appStep_store]

/-- A batch made of a single file appends exactly that file's terminal
record. -/
theorem runBatch_single (f : FileSpec) : runBatch [] [f] = [finalRecord f] := by
  show List.foldl applyEvent [] (fileEvents f ++ batchStoreEvents []) = _
  rw [show batchStoreEvents [] = [] from rfl, List.append_nil,
    foldl_fileEvents f [] (by intro q hq; cases hq)]
  rfl

/-- In a duplicate-free list, the element at position `k` does not occur
among the first `k` elements. -/
theorem not_mem_take_of_getElem {α : Type _} (l : List α) (k : Nat) (a : α)
    (hnd : l.Nodup) (hget : l[k]? = some a) : a ∉ l.take k := by
  intro hmem
  have hdrop : a ∈ l.drop k := by
    have h0 : (l.drop k)[0]? = some a := by
      rw [List.getElem?_drop]
      simpa using hget
    exact List.getElem?_mem h0
  have hnd' := hnd
  rw [← List.take_append_drop k l] at hnd'
  exact (List.nodup_append.mp hnd').2.2 hmem hdrop

/-! ### Claim theorems -/

/-- Claim C1: for every accepted batch the sequential loop processes the
files strictly one at a time in batch order: the file indices of the
scheduling events are nondecreasing along the trace (so every event of a
later file — its record creation, read and request included — comes after
every event of an earlier file, in particular after its promise resolution
and its delay completion, which both occur in the trace for every file), and
at most one extraction request is in flight at any time. -/
theorem claim1_sequential_processing (os : List FileOutcome) :
    List.Pairwise (fun a b => eventFile a ≤ eventFile b) (batchTrace 0 os)
    ∧ (∀ k, k < os.length →
        TraceEvent.recordCreated k ∈ batchTrace 0 os ∧
        TraceEvent.promiseResolved k ∈ batchTrace 0 os ∧
        TraceEvent.delayElapsed k ∈ batchTrace 0 os)
    ∧ atMostOneInFlight false (batchTrace 0 os) = true := by
  refine ⟨batchTrace_pairwise os 0, ?_, atMostOneInFlight_batchTrace os 0⟩
  intro k hk
  simpa using batchTrace_members os 0 k hk

/-- Witness for C1: a concrete two-file batch, whose second file's events
and markers all occur. -/
theorem claim1_witness :
    TraceEvent.recordCreated 1
        ∈ batchTrace 0 [FileOutcome.stream ["a"] none, FileOutcome.readError "boom"]
    ∧ TraceEvent.promiseResolved 1
        ∈ batchTrace 0 [FileOutcome.stream ["a"] none, FileOutcome.readError "boom"]
    ∧ TraceEvent.delayElapsed 1
        ∈ batchTrace 0 [FileOutcome.stream ["a"] none, FileOutcome.readError "boom"] :=
  (claim1_sequential_processing
    [FileOutcome.stream ["a"] none, FileOutcome.readError "boom"]).2.1 1 (by decide)

/-- Claim C2 counterexample: in a batch of two streamed files the second
record is created only after the first file's extraction request has been
issued, so it is false that every record of the batch is created before any
network interaction of the batch begins. -/
theorem claim2_counterexample :
    ¬ (∀ a b : Fin (batchTrace 0 [FileOutcome.stream [] none, FileOutcome.stream [] none]).length,
        (batchTrace 0 [FileOutcome.stream [] none, FileOutcome.stream [] none]).get a
            = TraceEvent.recordCreated 1 →
        (batchTrace 0 [FileOutcome.stream [] none, FileOutcome.stream [] none]).get b
            = TraceEvent.requestStart 0 →
        a < b) := by
  decide

/-- Claim C2 (amended): each accepted file's record is created
synchronously as the very first step of that file's own processing — before
that file's read and extraction request — in the processing state with
empty text, no error and the preview reference; under the sequential loop,
however, the k-th record only appears when the k-th file's processing
starts, not at batch intake. -/
theorem claim2_amended (i : Nat) (o : FileOutcome) (s : List ProcessedImage)
    (id name imageUrl : String) :
    (fileTrace i o).head? = some (TraceEvent.recordCreated i)
    ∧ applyEvent s (.intake id name imageUrl)
        = s ++ [{ id := id, name := name, text := "", isProcessing := true,
                  error := none, imageUrl := imageUrl }] :=
  ⟨fileTrace_head i o, rfl⟩

/-- Claim C3 counterexample: the id tokens are drawn from a random
generator with no uniqueness guarantee; when the token "x" is drawn for both
files of a batch, the store ends with two records carrying the same id, so
unconditional id uniqueness fails. -/
theorem claim3_counterexample :
    ¬ ((runBatch [] [⟨"x", "a.png", "u1", FileOutcome.stream ["old"] none⟩,
        ⟨"x", "b.png", "u2", FileOutcome.stream ["new"] none⟩]).map ProcessedImage.id).Nodup := by
  decide

/-- Claim C3 (amended): an accepted batch of N files creates exactly N
records, appended in drop order carrying the drawn ids and the file names;
the ids are unique in the store whenever the tokens drawn at intake are
pairwise distinct — a proviso the random token generator of the source does
not itself guarantee. -/
theorem claim3_amended (fs : List FileSpec) :
    (runBatch [] fs).map recKey = fs.map (fun f => (f.id, f.name))
    ∧ (runBatch [] fs).length = fs.length
    ∧ ((fs.map FileSpec.id).Nodup → ((runBatch [] fs).map ProcessedImage.id).Nodup) := by
  have h : (runBatch [] fs).map recKey = fs.map (fun f => (f.id, f.name)) := by
    rw [runBatch, recKey_foldl, intakeKeys_batch]
    rfl
  have hids : (runBatch [] fs).map ProcessedImage.id = fs.map FileSpec.id := by
    have h2 := congrArg (List.map Prod.fst) h
    simpa [List.map_map, recKey, Function.comp] using h2
  refine ⟨h, ?_, ?_⟩
  · simpa using congrArg List.length h
  · intro hnd
    rw [hids]
    exact hnd

/-- Witness for C3: a concrete two-file batch with distinct tokens yields
two records with duplicate-free ids. -/
theorem claim3_witness :
    ((runBatch [] [⟨"a", "x.png", "u1", FileOutcome.stream ["t"] none⟩,
        ⟨"b", "y.png", "u2", FileOutcome.readError "e"⟩]).map ProcessedImage.id).Nodup
    ∧ (runBatch [] [⟨"a", "x.png", "u1", FileOutcome.stream ["t"] none⟩,
        ⟨"b", "y.png", "u2", FileOutcome.readError "e"⟩]).length = 2 :=
  ⟨(claim3_amended _).2.2 (by decide), (claim3_amended _).2.1⟩

/-- Claim C4 counterexample: when the random generator draws the same token
"x" for two files, the first record reaches the terminal state with text
"old" after its three store events, but two events later the second file's
chunk update — keyed on the same id — has rewritten it, so its text changed
after `isProcessing` became false. -/
theorem claim4_counterexample :
    (⟨"x", "a.png", "old", false, none, "u1"⟩ : ProcessedImage)
        ∈ storeAt [⟨"x", "a.png", "u1", FileOutcome.stream ["old"] none⟩,
            ⟨"x", "b.png", "u2", FileOutcome.stream ["new"] none⟩] 3
    ∧ (⟨"x", "a.png", "old", false, none, "u1"⟩ : ProcessedImage)
        ∉ storeAt [⟨"x", "a.png", "u1", FileOutcome.stream ["old"] none⟩,
            ⟨"x", "b.png", "u2", FileOutcome.stream ["new"] none⟩] 5 := by
  decide

/-- Claim C4 (amended): provided the ids drawn at intake are pairwise
distinct, a record that has left the processing state is frozen for the rest
of the batch: at every later point it is still in the store, and any record
carrying its id is that very record — same text, still not processing.
Without the distinctness proviso the property fails (see the
counterexample). -/
theorem claim4_frozen_after_terminal (fs : List FileSpec)
    (hnd : (fs.map FileSpec.id).Nodup) (n m : Nat) (hnm : n ≤ m)
    (r : ProcessedImage) (hr : r ∈ storeAt fs n) (hp : r.isProcessing = false) :
    r ∈ storeAt fs m ∧ ∀ r' ∈ storeAt fs m, r'.id = r.id → r' = r := by
  have hdisj : ∀ q ∈ ([] : List ProcessedImage), ∀ f ∈ fs, q.id ≠ f.id := by
    intro q hq
    cases hq
  have hkk : ((batchStoreEvents fs).take n).countP isTerminal
      ≤ ((batchStoreEvents fs).take m).countP isTerminal :=
    (List.take_sublist_take_left _ hnm).countP_le _
  have hfin : ∃ g ∈ fs.take (((batchStoreEvents fs).take n).countP isTerminal),
      finalRecord g = r := by
    rcases storeShape fs [] n hdisj hnd with h | ⟨g, t, hget, h⟩
    · rw [storeAt, h] at hr
      simp only [List.nil_append] at hr
      exact List.mem_map.mp hr
    · rw [storeAt, h] at hr
      simp only [List.nil_append, List.mem_append, List.mem_singleton] at hr
      rcases hr with hr | hr
      · exact List.mem_map.mp hr
      · subst hr
        exact absurd hp (by simp [inflightRecord])
  obtain ⟨g0, hg0mem, hg0⟩ := hfin
  have hg0m : g0 ∈ fs.take (((batchStoreEvents fs).take m).countP isTerminal) :=
    List.take_subset_take_left fs hkk hg0mem
  have hndm : ((fs.take (((batchStoreEvents fs).take m).countP isTerminal)).map
      FileSpec.id).Nodup := by
    rw [List.map_take]
    exact (List.take_sublist _ _).nodup hnd
  have huniq : ∀ r', r' ∈ (fs.take (((batchStoreEvents fs).take m).countP
      isTerminal)).map finalRecord → r'.id = r.id → r' = r := by
    intro r' hr' hid
    obtain ⟨g1, hg1, hg1e⟩ := List.mem_map.mp hr'
    have hg1g0 : g1 = g0 := by
      apply List.inj_on_of_nodup_map hndm hg1 hg0m
      calc g1.id = (finalRecord g1).id := (finalRecord_id g1).symm
        _ = r'.id := by rw [hg1e]
        _ = r.id := hid
        _ = (finalRecord g0).id := by rw [hg0]
        _ = g0.id := finalRecord_id g0
    rw [← hg1e, hg1g0, hg0]
  rcases storeShape fs [] m hdisj hnd with h | ⟨g, t, hget, h⟩
  · constructor
    · rw [storeAt, h]
      simp only [List.nil_append]
      exact hg0 ▸ List.mem_map_of_mem finalRecord hg0m
    · intro r' hr' hid
      rw [storeAt, h] at hr'
      simp only [List.nil_append] at hr'
      exact huniq r' hr' hid
  · constructor
    · rw [storeAt, h]
      simp only [List.nil_append]
      exact List.mem_append_left _ (hg0 ▸ List.mem_map_of_mem finalRecord hg0m)
    · intro r' hr' hid
      rw [storeAt, h] at hr'
      simp only [List.nil_append, List.mem_append, List.mem_singleton] at hr'
      rcases hr' with hr' | hr'
      · exact huniq r' hr' hid
      · exfalso
        subst hr'
        have hgid : (fs.map FileSpec.id)[((batchStoreEvents fs).take m).countP isTerminal]?
            = some g.id := by
          rw [List.getElem?_map, hget]
          rfl
        have hg0id : g0.id ∈ (fs.map FileSpec.id).take
            (((batchStoreEvents fs).take m).countP isTerminal) := by
          rw [← List.map_take]
          exact List.mem_map_of_mem FileSpec.id hg0m
        apply not_mem_take_of_getElem (fs.map FileSpec.id) _ g.id hnd hgid
        have hgg0 : g.id = g0.id := by
          calc g.id = (inflightRecord g t).id := rfl
            _ = r.id := hid
            _ = (finalRecord g0).id := by rw [hg0]
            _ = g0.id := finalRecord_id g0
        rw [hgg0]
        exact hg0id

/-- Witness for C4: a concrete two-file batch with distinct ids; the first
file's terminal record is untouched by the second file's processing. -/
theorem claim4_witness :
    (⟨"a", "x.png", "hello", false, none, "u1"⟩ : ProcessedImage)
        ∈ storeAt [⟨"a", "x.png", "u1", FileOutcome.stream ["hello"] none⟩,
            ⟨"b", "y.png", "u2", FileOutcome.stream ["world"] (some "err")⟩] 5
    ∧ ∀ r' ∈ storeAt [⟨"a", "x.png", "u1", FileOutcome.stream ["hello"] none⟩,
            ⟨"b", "y.png", "u2", FileOutcome.stream ["world"] (some "err")⟩] 5,
        r'.id = (⟨"a", "x.png", "hello", false, none, "u1"⟩ : ProcessedImage).id →
        r' = ⟨"a", "x.png", "hello", false, none, "u1"⟩ :=
  claim4_frozen_after_terminal
    [⟨"a", "x.png", "u1", FileOutcome.stream ["hello"] none⟩,
     ⟨"b", "y.png", "u2", FileOutcome.stream ["world"] (some "err")⟩]
    (by decide) 3 5 (by decide) ⟨"a", "x.png", "hello", false, none, "u1"⟩
    (by decide) rfl

/-- Claim C5 counterexample: the failure message is not one single fixed
message — a read failure records "File reading error" while a service
failure records "Failed to process image", two different strings. -/
theorem claim5_counterexample :
    (runBatch [] [⟨"a", "x.png", "u1", FileOutcome.readError "rawR"⟩]).map ProcessedImage.error
      ≠ (runBatch [] [⟨"a", "x.png", "u1", FileOutcome.stream [] (some "rawS")⟩]).map
          ProcessedImage.error := by
  decide

/-- Claim C5 (amended): on any failure — synchronous throw, read failure,
or streaming service failure — the record leaves the processing state and
its error is set to one of two fixed generic messages: "File reading error"
for the read failure, "Failed to process image" otherwise; the raw
underlying error payload (universally quantified here) never reaches the
record. -/
theorem claim5_two_fixed_messages (id name url : String) :
    (∀ raw, runBatch [] [⟨id, name, url, FileOutcome.readError raw⟩]
        = [⟨id, name, "", false, some "File reading error", url⟩])
    ∧ (∀ raw, runBatch [] [⟨id, name, url, FileOutcome.syncError raw⟩]
        = [⟨id, name, "", false, some "Failed to process image", url⟩])
    ∧ (∀ cs raw, runBatch [] [⟨id, name, url, FileOutcome.stream cs (some raw)⟩]
        = [⟨id, name, concatChunks cs, false, some "Failed to process image", url⟩]) :=
  ⟨fun raw => by rw [runBatch_single]; rfl,
   fun raw => by rw [runBatch_single]; rfl,
   fun cs raw => by rw [runBatch_single]; rfl⟩

/-- Claim C6 counterexample: for a record that failed after streaming the
text "partial", the card body renders the fixed error message in place of
the accumulated text, so the partial text is not what the card shows. -/
theorem claim6_counterexample :
    cardContent ⟨"a", "x.png", "partial", false, some "Failed to process image", "u"⟩
      ≠ CardContent.textView "partial" := by
  decide

/-- Claim C6 (amended): on a streaming failure no partial result is
discarded from the store — the failed record keeps exactly the text
accumulated from the chunks streamed before the failure — but the card body
renders the fixed error message in place of that text; the partial text is
rendered only by the detail pane once the record is selected. -/
theorem claim6_text_frozen_not_on_card (id name url raw : String) (cs : List String)
    (s₀ : AppState) :
    runBatch [] [⟨id, name, url, FileOutcome.stream cs (some raw)⟩]
      = [⟨id, name, concatChunks cs, false, some "Failed to process image", url⟩]
    ∧ cardContent ⟨id, name, concatChunks cs, false, some "Failed to process image", url⟩
        = CardContent.errorView "Failed to process image"
    ∧ detailText (appStep s₀ (AppEvent.selectImage
        ⟨id, name, concatChunks cs, false, some "Failed to process image", url⟩))
        = some (concatChunks cs) :=
  ⟨by rw [runBatch_single]; rfl, rfl, rfl⟩

/-- Claim C7 counterexample: for the name "archive.tar.png" the action
produces "archive-extracted.txt" — the part before the first dot — while
the stem rule of the claim demands "archive.tar-extracted.txt". -/
theorem claim7_counterexample :
    downloadFileName "archive.tar.png" = "archive-extracted.txt"
    ∧ stemDownloadName "archive.tar.png" = "archive.tar-extracted.txt"
    ∧ downloadFileName "archive.tar.png" ≠ stemDownloadName "archive.tar.png" := by
  refine ⟨by decide, by decide, ?_⟩
  decide

/-- Claim C7 (amended): the download action produces a plain-text file
whose content is exactly the record's current text and whose name is the
part of the original file name before its first dot, followed by
"-extracted.txt" — which agrees with the name's stem whenever the name
contains at most one dot; in particular "receipt.png" yields
"receipt-extracted.txt". -/
theorem claim7_download_first_dot (text filename : String) :
    downloadFile text filename
      = (String.mk (filename.data.takeWhile fun c => c != '.') ++ "-extracted.txt", text)
    ∧ downloadFile text "receipt.png" = ("receipt-extracted.txt", text) := by
  constructor
  · show (downloadFileName filename, text) = _
    rw [downloadFileName_takeWhile]
  · show (downloadFileName "receipt.png", text) = _
    rw [show downloadFileName "receipt.png" = "receipt-extracted.txt" from by decide]

/-- Claim C8 counterexample: after dropping one image and removing its
record, the record is gone from the store but its preview object URL is
still allocated — the source never calls a revocation, so the preview
reference is not freed. -/
theorem claim8_counterexample :
    (runApp initialAppState
        [AppEvent.store (StoreEvent.intake "a" "x.png" "blob:u1"),
         AppEvent.removeImage "a"]).processedImages = []
    ∧ "blob:u1" ∈ (runApp initialAppState
        [AppEvent.store (StoreEvent.intake "a" "x.png" "blob:u1"),
         AppEvent.removeImage "a"]).allocatedUrls := by
  decide

/-- Claim C8 (amended): the remove action deletes exactly the records
carrying the removed id — every other record survives in its prior order —
and clears the detail selection exactly when the selected record carries the
removed id; the preview object URL, however, is not freed: the set of
allocated URLs is unchanged. -/
theorem claim8_remove_exact (s : AppState) (x : String) :
    (∀ r, r ∈ (appStep s (AppEvent.removeImage x)).processedImages
        ↔ r ∈ s.processedImages ∧ r.id ≠ x)
    ∧ (appStep s (AppEvent.removeImage x)).processedImages.Sublist s.processedImages
    ∧ (appStep s (AppEvent.removeImage x)).allocatedUrls = s.allocatedUrls
    ∧ (∀ im, s.selectedImage = some im → im.id = x →
        (appStep s (AppEvent.removeImage x)).selectedImage = none)
    ∧ (∀ im, s.selectedImage = some im → im.id ≠ x →
        (appStep s (AppEvent.removeImage x)).selectedImage = some im)
    ∧ (s.selectedImage = none → (appStep s (AppEvent.removeImage x)).selectedImage = none) := by
  refine ⟨?_, ?_, rfl, ?_, ?_, ?_⟩
  · intro r
    show r ∈ s.processedImages.filter (fun img => img.id != x) ↔ _
    simp [List.mem_filter]
  · exact List.filter_sublist _
  · intro im him hid
    show (match s.selectedImage with
        | some im => if im.id = x then none else some im
        | none => none) = none
    rw [him]
    simp [hid]
  · intro im him hid
    show (match s.selectedImage with
        | some im => if im.id = x then none else some im
        | none => none) = some im
    rw [him]
    simp [hid]
  · intro hnone
    show (match s.selectedImage with
        | some im => if im.id = x then none else some im
        | none => none) = none
    rw [hnone]

/-- Witness for C8: removing id "a" from a concrete two-record state with
record "a" selected keeps record "b", clears the selection, and leaves the
allocated URLs unchanged. -/
theorem claim8_witness :
    ((⟨"b", "y.png", "t2", false, none, "u2"⟩ : ProcessedImage)
        ∈ (appStep ⟨[⟨"a", "x.png", "t1", false, none, "u1"⟩,
              ⟨"b", "y.png", "t2", false, none, "u2"⟩],
            some ⟨"a", "x.png", "t1", false, none, "u1"⟩, ["u1", "u2"]⟩
            (AppEvent.removeImage "a")).processedImages)
    ∧ (appStep ⟨[⟨"a", "x.png", "t1", false, none, "u1"⟩,
          ⟨"b", "y.png", "t2", false, none, "u2"⟩],
        some ⟨"a", "x.png", "t1", false, none, "u1"⟩, ["u1", "u2"]⟩
        (AppEvent.removeImage "a")).selectedImage = none
    ∧ (appStep ⟨[⟨"a", "x.png", "t1", false, none, "u1"⟩,
          ⟨"b", "y.png", "t2", false, none, "u2"⟩],
        some ⟨"a", "x.png", "t1", false, none, "u1"⟩, ["u1", "u2"]⟩
        (AppEvent.removeImage "a")).allocatedUrls = ["u1", "u2"] :=
  ⟨((claim8_remove_exact _ "a").1 _).mpr ⟨by decide, by decide⟩,
   (claim8_remove_exact _ "a").2.2.2.1 _ rfl rfl,
   (claim8_remove_exact _ "a").2.2.1⟩

/-- Claim C9 counterexample: a reachable run — intake, a first chunk,
selection of the record, then a second chunk — leaves the detail pane
rendering "hello", the text captured at selection time, while the record's
current text in the store is "hello world": text streamed after the moment
of selection is not rendered by the pane. -/
theorem claim9_counterexample :
    detailText (runApp initialAppState
        [AppEvent.store (StoreEvent.intake "a" "x.png" "u"),
         AppEvent.store (StoreEvent.chunkUpdate "a" "hello"),
         AppEvent.selectImage ⟨"a", "x.png", "hello", true, none, "u"⟩,
         AppEvent.store (StoreEvent.chunkUpdate "a" "hello world")]) = some "hello"
    ∧ (runApp initialAppState
        [AppEvent.store (StoreEvent.intake "a" "x.png" "u"),
         AppEvent.store (StoreEvent.chunkUpdate "a" "hello"),
         AppEvent.selectImage ⟨"a", "x.png", "hello", true, none, "u"⟩,
         AppEvent.store (StoreEvent.chunkUpdate "a" "hello world")]).processedImages
        = [⟨"a", "x.png", "hello world", true, none, "u"⟩]
    ∧ detailText (runApp initialAppState
        [AppEvent.store (StoreEvent.intake "a" "x.png" "u"),
         AppEvent.store (StoreEvent.chunkUpdate "a" "hello"),
         AppEvent.selectImage ⟨"a", "x.png", "hello", true, none, "u"⟩,
         AppEvent.store (StoreEvent.chunkUpdate "a" "hello world")]) ≠ some "hello world" := by
  refine ⟨by decide, by decide, ?_⟩
  decide

/-- Claim C9 (amended): the detail pane renders the full text of the
selected record as captured at the moment of selection: selecting a record
sets the pane to that snapshot's text, and no later processor store update
changes what the pane renders — chunks streamed after selection only reach
the pane if the record is selected again; dismissing the pane, or removing
the selected record, clears it. -/
theorem claim9_pane_snapshot (s : AppState) (img : ProcessedImage) (evs : List StoreEvent) :
    detailText (appStep s (AppEvent.selectImage img)) = some img.text
    ∧ detailText (runApp (appStep s (AppEvent.selectImage img)) (evs.map AppEvent.store))
        = some img.text
    ∧ detailText (appStep s AppEvent.clearSelection) = none
    ∧ (∀ im, s.selectedImage = some im →
        detailText (appStep s (AppEvent.removeImage im.id)) = none) := by
  refine ⟨rfl, ?_, rfl, ?_⟩
  · show ((List.foldl appStep (appStep s (AppEvent.selectImage img))
        (evs.map AppEvent.store)).selectedImage).map ProcessedImage.text = _
    rw [selected_foldl_store]
    rfl
  · intro im him
    simp [appStep, detailText, him]

/-- Witness for C9: in a concrete state with the record "a" selected,
removing "a" clears the pane, while the snapshot semantics holds for a
concrete selection and a later chunk update. -/
theorem claim9_witness :
    detailText (appStep ⟨[⟨"a", "x.png", "hello", true, none, "u"⟩],
        some ⟨"a", "x.png", "hello", true, none, "u"⟩, ["u"]⟩
        (AppEvent.removeImage "a")) = none
    ∧ detailText (runApp (appStep ⟨[⟨"a", "x.png", "hello", true, none, "u"⟩],
        none, ["u"]⟩ (AppEvent.selectImage ⟨"a", "x.png", "hello", true, none, "u"⟩))
        ([StoreEvent.chunkUpdate "a" "hello world"].map AppEvent.store)) = some "hello" :=
  ⟨(claim9_pane_snapshot ⟨[⟨"a", "x.png", "hello", true, none, "u"⟩],
        some ⟨"a", "x.png", "hello", true, none, "u"⟩, ["u"]⟩
      ⟨"a", "x.png", "hello", true, none, "u"⟩ []).2.2.2
      ⟨"a", "x.png", "hello", true, none, "u"⟩ rfl,
   (claim9_pane_snapshot ⟨[⟨"a", "x.png", "hello", true, none, "u"⟩], none, ["u"]⟩
      ⟨"a", "x.png", "hello", true, none, "u"⟩
      [StoreEvent.chunkUpdate "a" "hello world"]).2.1⟩

/-- Claim C10: every store operation preserves the relative order of the
records it does not target: intake appends exactly one record at the end;
chunk, terminal and error updates keep the record count and the id sequence,
and every position holding a record with a different id is untouched;
removal keeps the surviving records in their prior relative order and a
record survives it exactly when it carries a different id. -/
theorem claim10_order_preserved (s : List ProcessedImage) (st : AppState)
    (x name url t msg : String) :
    applyEvent s (.intake x name url)
        = s ++ [⟨x, name, "", true, none, url⟩]
    ∧ (applyEvent s (.chunkUpdate x t)).length = s.length
    ∧ (applyEvent s (.done x)).length = s.length
    ∧ (applyEvent s (.fail x msg)).length = s.length
    ∧ (applyEvent s (.chunkUpdate x t)).map ProcessedImage.id = s.map ProcessedImage.id
    ∧ (applyEvent s (.done x)).map ProcessedImage.id = s.map ProcessedImage.id
    ∧ (applyEvent s (.fail x msg)).map ProcessedImage.id = s.map ProcessedImage.id
    ∧ (∀ (i : Nat) (r₀ : ProcessedImage), s[i]? = some r₀ → r₀.id ≠ x →
        (applyEvent s (.chunkUpdate x t))[i]? = some r₀
        ∧ (applyEvent s (.done x))[i]? = some r₀
        ∧ (applyEvent s (.fail x msg))[i]? = some r₀)
    ∧ (appStep st (AppEvent.removeImage x)).processedImages.Sublist st.processedImages
    ∧ (∀ r, r ∈ (appStep st (AppEvent.removeImage x)).processedImages
        ↔ r ∈ st.processedImages ∧ r.id ≠ x) := by
  refine ⟨rfl, ?_, ?_, ?_, ?_, ?_, ?_, ?_, List.filter_sublist _, ?_⟩
  · simp [applyEvent]
  · simp [applyEvent]
  · simp [applyEvent]
  · simp only [applyEvent, List.map_map]
    refine List.map_congr_left fun r _ => ?_
    by_cases h : r.id = x <;> simp [h]
  · simp only [applyEvent, List.map_map]
    refine List.map_congr_left fun r _ => ?_
    by_cases h : r.id = x <;> simp [h]
  · simp only [applyEvent, List.map_map]
    refine List.map_congr_left fun r _ => ?_
    by_cases h : r.id = x <;> simp [h]
  · intro i r₀ hi hne
    refine ⟨?_, ?_, ?_⟩ <;>
      simp [applyEvent, List.getElem?_map, hi, hne]
  · intro r
    show r ∈ st.processedImages.filter (fun img => img.id != x) ↔ _
    simp [List.mem_filter]

/-- Witness for C10: a concrete two-record store where the update keyed on
"b" leaves the record at position 0 — which carries id "a" — untouched. -/
theorem claim10_witness :
    (applyEvent [⟨"a", "x.png", "s", true, none, "u1"⟩,
        ⟨"b", "y.png", "", true, none, "u2"⟩] (.chunkUpdate "b" "w"))[0]?
        = some ⟨"a", "x.png", "s", true, none, "u1"⟩
    ∧ (applyEvent [⟨"a", "x.png", "s", true, none, "u1"⟩,
        ⟨"b", "y.png", "", true, none, "u2"⟩] (.done "b"))[0]?
        = some ⟨"a", "x.png", "s", true, none, "u1"⟩
    ∧ (applyEvent [⟨"a", "x.png", "s", true, none, "u1"⟩,
        ⟨"b", "y.png", "", true, none, "u2"⟩] (.fail "b" "Failed to process image"))[0]?
        = some ⟨"a", "x.png", "s", true, none, "u1"⟩ :=
  (claim10_order_preserved [⟨"a", "x.png", "s", true, none, "u1"⟩,
      ⟨"b", "y.png", "", true, none, "u2"⟩] initialAppState
      "b" "y.png" "u2" "w" "Failed to process image").2.2.2.2.2.2.2.1
    0 ⟨"a", "x.png", "s", true, none, "u1"⟩ (by decide) (by decide)
